import Mathlib

/-! Client script of the two-player 5×5 board game (`src/client/script.js`).

A shallow embedding of the browser client.  The page-level variables the
functions read and write (`socket`, `gameId`, `player`, `currentTurn`, the
children of `#game-board`, the text of `#message`, the display style of
`#setup-form`) are gathered in one record that is passed explicitly.

Conventions of the embedding:

* a variable that may hold `undefined` is an `Option`; `none` is `undefined`;
* a function in which a `TypeError` can escape returns an `Option`, `none`
  standing for the thrown exception;
* row and column numbers are integers.
-/

namespace Script

/-! ## Values -/

/-- String conversion used by template literals: `undefined` is spelled out. -/
def jsStr : Option String → String
  | some s => s
  | none => "undefined"

/-- One `div.cell` of the board: its `dataset` coordinates, its text and its
class list. -/
structure Cell where
  row : Nat
  col : Nat
  textContent : String
  classList : List String
deriving DecidableEq, Repr

/-- The object literal `{ row, col }` pushed by `addMoveIfValid`. -/
structure Move where
  row : Int
  col : Int
deriving DecidableEq, Repr

/-- Messages the client passes to `socket.send` (the argument of
`JSON.stringify`, kept structured). -/
inductive OutMsg where
  | create_game (game_id : Option String)
  | join_game (game_id : Option String)
  | initialize_game (game_id : Option String) (setupA setupB : List String)
  | make_move (game_id : Option String) (player : Option String) (move : String)
deriving DecidableEq, Repr

/-- The result of `JSON.parse(event.data)`: the fields `handleMessage` reads.
A board cell is a string or `null`. -/
structure InMsg where
  type : Option String
  game_id : Option String
  player : Option String
  board : Option (List (List (Option String)))
  current_player : Option String
  message : Option String
deriving DecidableEq, Repr

/-- The page-level state of the script. `socket` is `none` until
`connectToGame` has run and otherwise holds the messages sent so far. -/
structure Client where
  socket : Option (List OutMsg)
  gameId : Option String
  player : Option String
  currentTurn : Option String
  gameBoard : List Cell
  messageDisplay : String
  setupFormDisplay : String
deriving DecidableEq, Repr

/-! ## Setup validation -/

/-- The method `Set.prototype.add` on the insertion-ordered list of members. -/
def jsSetAdd (s : List String) (x : String) : List String :=
  if s.contains x then s else s ++ [x]

/-- The set built by `new Set(xs)`. -/
def jsSetOf (xs : List String) : List String :=
  xs.foldl jsSetAdd []

/-- The function `isValidSetup(setup)`. -/
def isValidSetup (setup : List String) : Bool :=
  setup.length == 5 && (jsSetOf setup).length == 5

/-- The function `setMessage(message)`. -/
def setMessage (st : Client) (message : String) : Client :=
  { st with messageDisplay := message }

/-- The call `socket.send(msg)`; it throws when `socket` is still `undefined`. -/
def socketSend (st : Client) (msg : OutMsg) : Option Client :=
  match st.socket with
  | none => none
  | some sent => some { st with socket := some (sent ++ [msg]) }

/-- The function `startGame()`; the two arguments are the values read from the
`#player-a-setup` and `#player-b-setup` selects. -/
def startGame (st : Client) (setupA setupB : List String) : Option Client :=
  if isValidSetup setupA && isValidSetup setupB then
    match socketSend st (.initialize_game st.gameId setupA setupB) with
    | none => none
    | some st1 => some { st1 with setupFormDisplay := "none" }
  else
    some (setMessage st "Invalid setup. Please ensure you have selected 5 unique characters.")

/-! ## Move generation -/

/-- The class name built by the template literal in `addMoveIfValid` and
`selectCell`. -/
def playerClass (player : Option String) : String :=
  "player-" ++ jsStr player

/-- The function `addMoveIfValid(moves, row, col)`, reading `gameBoard.children` and
`player`. -/
def addMoveIfValid (gameBoard : List Cell) (player : Option String)
    (moves : List Move) (row col : Int) : Option (List Move) :=
  if row ≥ 0 ∧ row < 5 ∧ col ≥ 0 ∧ col < 5 then
    match gameBoard[(row * 5 + col).toNat]? with
    | none => none
    | some cell =>
      if !cell.classList.contains (playerClass player) then
        some (moves ++ [{ row := row, col := col }])
      else
        some moves
  else
    some moves

/-- The function `getValidMoves(piece, row, col)`, reading `gameBoard.children` and
`player`. -/
def getValidMoves (gameBoard : List Cell) (player : Option String)
    (piece : String) (row col : Int) : Option (List Move) :=
  let moves : List Move := []
  let direction : Int := if player = some "A" then 1 else -1
  if piece.data[0]? = some 'P' then do
    let moves ← addMoveIfValid gameBoard player moves (row + direction) col
    let moves ← addMoveIfValid gameBoard player moves row (col - 1)
    let moves ← addMoveIfValid gameBoard player moves row (col + 1)
    let moves ← addMoveIfValid gameBoard player moves (row - direction) col
    pure moves
  else if piece.data[0]? = some 'H' then
    if piece.data[1]? = some '1' then do
      let moves ← addMoveIfValid gameBoard player moves (row + 2 * direction) col
      let moves ← addMoveIfValid gameBoard player moves (row - 2 * direction) col
      let moves ← addMoveIfValid gameBoard player moves row (col - 2)
      let moves ← addMoveIfValid gameBoard player moves row (col + 2)
      pure moves
    else if piece.data[1]? = some '2' then do
      let moves ← addMoveIfValid gameBoard player moves (row + 2 * direction) (col + 2)
      let moves ← addMoveIfValid gameBoard player moves (row + 2 * direction) (col - 2)
      let moves ← addMoveIfValid gameBoard player moves (row - 2 * direction) (col + 2)
      let moves ← addMoveIfValid gameBoard player moves (row - 2 * direction) (col - 2)
      pure moves
    else
      pure moves
  else
    pure moves

/-- The function `getMoveDirection(fromRow, fromCol, toRow, toCol)`. -/
def getMoveDirection (fromRow fromCol toRow toCol : Int) : String :=
  let rowDiff := toRow - fromRow
  let colDiff := toCol - fromCol
  if rowDiff = 0 then
    if colDiff > 0 then "R" else "L"
  else if colDiff = 0 then
    if rowDiff > 0 then "F" else "B"
  else
    let vertical := if rowDiff > 0 then "F" else "B"
    let horizontal := if colDiff > 0 then "R" else "L"
    vertical ++ horizontal

/-! ## Sending a move -/

/-- The function `clearHighlights()`: every cell loses the classes `selected` and
`valid-move`. -/
def clearHighlights (st : Client) : Client :=
  { st with gameBoard := st.gameBoard.map fun cell =>
      { cell with classList := cell.classList.filter fun c =>
          !(c == "selected" || c == "valid-move") } }

/-- The template literal of `makeMove`: the piece name, a colon and the
direction token. -/
def moveString (fromCell : Cell) (toRow toCol : Int) : String :=
  fromCell.textContent ++ ":" ++ getMoveDirection fromCell.row fromCell.col toRow toCol

/-- The function `makeMove(fromCell, toRow, toCol)`. -/
def makeMove (st : Client) (fromCell : Cell) (toRow toCol : Int) : Option Client :=
  match socketSend st (.make_move st.gameId st.player (moveString fromCell toRow toCol)) with
  | none => none
  | some st1 => some (clearHighlights st1)

/-! ## Rendering and inbound messages -/

/-- The call `s.split('-')` on the characters of `s`. -/
def splitDash : List Char → List (List Char)
  | [] => [[]]
  | c :: cs =>
    if c = '-' then [] :: splitDash cs
    else
      match splitDash cs with
      | [] => [[c]]
      | seg :: rest => (c :: seg) :: rest

/-- ASCII whitespace, which `classList.add` refuses inside a token. -/
def isAsciiWhitespace (c : Char) : Bool :=
  c == ' ' || c == '\t' || c == '\n' || c == '\x0c' || c == '\r'

/-- The method `classList.add(token)`: it throws on a token holding whitespace, and adds
the token unless it is already there. -/
def classListAdd (classList : List String) (token : String) : Option (List String) :=
  if token.data.any isAsciiWhitespace then none
  else if classList.contains token then some classList
  else some (classList ++ [token])

/-- The body of the inner loop of `renderBoard` up to the `appendChild`: the
cell built for `board[row][col]`, given as `value` (`none` when `null` or
absent). -/
def renderCell (row col : Nat) (value : Option String) : Option Cell :=
  let cell : Cell := { row := row, col := col, textContent := "", classList := ["cell"] }
  match value with
  | none => some cell
  | some s =>
    if s = "" then some cell
    else
      let parts := splitDash s.data
      let piecePlayer : String := String.mk (parts.headD [])
      let pieceName : String :=
        match parts[1]? with
        | some n => String.mk n
        | none => ""
      match classListAdd cell.classList ("player-" ++ piecePlayer) with
      | none => none
      | some classes => some { cell with textContent := pieceName, classList := classes }

/-- The (row, col) pairs in the order the two nested loops of `renderBoard`
visit them. -/
def boardPositions : List (Nat × Nat) :=
  (List.range 5).flatMap fun row => (List.range 5).map fun col => (row, col)

/-- The loops of `renderBoard` over the positions still to visit; the flag is
`false` when an exception interrupted the loop, the cells appended before it
staying in place. -/
def renderLoop (board : List (List (Option String))) :
    List (Nat × Nat) → List Cell → List Cell × Bool
  | [], children => (children, true)
  | (row, col) :: rest, children =>
    match board[row]? with
    | none => (children, false)
    | some boardRow =>
      match renderCell row col (boardRow[col]?).join with
      | none => (children, false)
      | some cell => renderLoop board rest (children ++ [cell])

/-- The function `renderBoard(board)`: the new state and whether the call returned
normally. -/
def renderBoard (st : Client) (board : Option (List (List (Option String)))) :
    Client × Bool :=
  match board with
  | none => ({ st with gameBoard := [] }, false)
  | some b =>
    let r := renderLoop b boardPositions []
    ({ st with gameBoard := r.1 }, r.2)

/-- The function `updateTurnDisplay()`. -/
def updateTurnDisplay (st : Client) : Client :=
  setMessage st ("Current turn: Player " ++ jsStr st.currentTurn)

/-- The function `handleMessage(event)` from the parsed `data` on; an exception raised in
the `switch` is caught by the surrounding `try`, which leaves the state as it
was when the exception was thrown. -/
def handleMessage (st : Client) (data : InMsg) : Client :=
  if data.type = some "game_created" then
    setMessage st ("Game created: " ++ jsStr data.game_id)
  else if data.type = some "player_assigned" then
    let st1 := { st with player := data.player }
    let st2 := setMessage st1 ("You are Player " ++ jsStr st1.player)
    { st2 with setupFormDisplay := "block" }
  else if data.type = some "game_initialized" then
    match renderBoard st data.board with
    | (st1, false) => st1
    | (st1, true) => updateTurnDisplay { st1 with currentTurn := data.current_player }
  else if data.type = some "move_made" then
    match renderBoard st data.board with
    | (st1, false) => st1
    | (st1, true) => updateTurnDisplay { st1 with currentTurn := data.current_player }
  else if data.type = some "error" then
    setMessage st ("Error: " ++ jsStr data.message)
  else
    st

/-! ## Vocabulary of the statements -/

/-- The class is one of the `player-…` classes that `renderBoard` attaches. -/
def isPlayerClass (c : String) : Bool :=
  "player-".data.isPrefixOf c.data

/-- The `player-…` classes of a cell. -/
def Cell.playerClasses (cell : Cell) : List String :=
  cell.classList.filter isPlayerClass

/-- No piece stands on the cell. -/
def Cell.isEmpty (cell : Cell) : Bool :=
  cell.playerClasses == []

/-- A piece of `owner`, and of nobody else, stands on the cell. -/
def Cell.occupiedBy (cell : Cell) (owner : String) : Bool :=
  cell.playerClasses == ["player-" ++ owner]

/-- The cell lies on the 5×5 board. -/
def inBounds (row col : Int) : Prop :=
  0 ≤ row ∧ row < 5 ∧ 0 ≤ col ∧ col < 5

instance (row col : Int) : Decidable (inBounds row col) := by
  unfold inBounds; infer_instance

/-- The cell of the board at (row, col), when there is one. -/
def cellAt (gameBoard : List Cell) (row col : Int) : Option Cell :=
  gameBoard[(row * 5 + col).toNat]?

/-- The cell at (row, col) carries the class of `player`, that is, one of
the player's own pieces stands there. -/
def ownAt (gameBoard : List Cell) (player : Option String) (row col : Int) : Bool :=
  match cellAt gameBoard row col with
  | some cell => cell.classList.contains (playerClass player)
  | none => false

/-- The destination passes the two tests of `addMoveIfValid`. -/
def legalCell (gameBoard : List Cell) (player : Option String) (m : Move) : Bool :=
  decide (inBounds m.row m.col) && !ownAt gameBoard player m.row m.col

/-- The forward row step of `getValidMoves`. -/
def forwardStep (player : Option String) : Int :=
  if player = some "A" then 1 else -1

/-- The cells `getValidMoves` hands to `addMoveIfValid`, in call order. -/
def candidates (player : Option String) (piece : String) (row col : Int) : List Move :=
  let direction := forwardStep player
  if piece.data[0]? = some 'P' then
    [⟨row + direction, col⟩, ⟨row, col - 1⟩, ⟨row, col + 1⟩, ⟨row - direction, col⟩]
  else if piece.data[0]? = some 'H' then
    if piece.data[1]? = some '1' then
      [⟨row + 2 * direction, col⟩, ⟨row - 2 * direction, col⟩, ⟨row, col - 2⟩, ⟨row, col + 2⟩]
    else if piece.data[1]? = some '2' then
      [⟨row + 2 * direction, col + 2⟩, ⟨row + 2 * direction, col - 2⟩,
       ⟨row - 2 * direction, col + 2⟩, ⟨row - 2 * direction, col - 2⟩]
    else []
  else []

/-- The cell at (row, col) exists and no piece stands on it. -/
def emptyAt (gameBoard : List Cell) (row col : Int) : Bool :=
  match cellAt gameBoard row col with
  | some cell => cell.isEmpty
  | none => false

/-- The cell at (row, col) exists and a piece of `owner` stands on it. -/
def occupiedAt (gameBoard : List Cell) (owner : String) (row col : Int) : Bool :=
  match cellAt gameBoard row col with
  | some cell => cell.occupiedBy owner
  | none => false

/-! ## A sample position -/

/-- A connected client of player A before any board has been received. -/
def blankClient : Client :=
  { socket := some [], gameId := some "abc123", player := some "A", currentTurn := some "A",
    gameBoard := [], messageDisplay := "", setupFormDisplay := "block" }

/-- A board as the server serialises it, a few moves into a game. -/
def sampleWireBoard : List (List (Option String)) :=
  [[some "A-P2", none, none, some "A-H1", some "A-H2"],
   [none, some "A-P1", none, none, none],
   [none, none, none, some "A-P3", none],
   [none, none, none, some "B-P1", none],
   [some "B-P2", some "B-P3", none, some "B-H1", some "B-H2"]]

/-- The cells `renderBoard` builds for `sampleWireBoard`. -/
def sampleBoard : List Cell :=
  (renderBoard blankClient (some sampleWireBoard)).1.gameBoard

/-- The client of player B looking at `sampleBoard`. -/
def sampleClientB : Client :=
  { blankClient with player := some "B", currentTurn := some "B", gameBoard := sampleBoard }

/-- A message of a type the client does not know. -/
def pingMsg : InMsg :=
  { type := some "ping", game_id := none, player := some "B", board := none,
    current_player := some "B", message := none }

/-- A `move_made` message carrying `sampleWireBoard`. -/
def moveMadeMsg : InMsg :=
  { type := some "move_made", game_id := none, player := none,
    board := some sampleWireBoard, current_player := some "B", message := none }

/-! ## Lemmas on setup validation -/

theorem foldl_jsSetAdd_length_le (xs : List String) :
    ∀ acc : List String, (xs.foldl jsSetAdd acc).length ≤ acc.length + xs.length := by
  induction xs with
  | nil => intro acc; simp
  | cons x xs ih =>
    intro acc
    have h := ih (jsSetAdd acc x)
    have h2 : (jsSetAdd acc x).length ≤ acc.length + 1 := by
      unfold jsSetAdd; split <;> simp
    simp only [List.foldl_cons, List.length_cons]
    omega

theorem foldl_jsSetAdd_length_eq_iff (xs : List String) :
    ∀ acc : List String,
      (xs.foldl jsSetAdd acc).length = acc.length + xs.length ↔
        xs.Nodup ∧ ∀ x ∈ xs, x ∉ acc := by
  induction xs with
  | nil => intro acc; simp
  | cons x xs ih =>
    intro acc
    simp only [List.foldl_cons, List.length_cons, List.nodup_cons, List.mem_cons]
    by_cases hx : x ∈ acc
    · have hle := foldl_jsSetAdd_length_le xs acc
      have hadd : jsSetAdd acc x = acc := by simp [jsSetAdd, hx]
      rw [hadd]
      constructor
      · intro h; omega
      · intro h; exact absurd hx (h.2 x (Or.inl rfl))
    · have hadd : jsSetAdd acc x = acc ++ [x] := by simp [jsSetAdd, hx]
      rw [hadd]
      have := ih (acc ++ [x])
      simp only [List.length_append, List.length_singleton] at this
      rw [show acc.length + (xs.length + 1) = acc.length + 1 + xs.length by omega, this]
      constructor
      · rintro ⟨hnd, hall⟩
        refine ⟨⟨?_, hnd⟩, ?_⟩
        · intro hmem
          have := hall x hmem
          simp at this
        · rintro y (rfl | hy)
          · exact hx
          · have := hall y hy
            simp at this
            exact this.1
      · rintro ⟨⟨hnot, hnd⟩, hall⟩
        refine ⟨hnd, ?_⟩
        intro y hy
        simp only [List.mem_append, List.mem_singleton, not_or]
        refine ⟨hall y (Or.inr hy), ?_⟩
        rintro rfl
        exact hnot hy

theorem isValidSetup_iff (setup : List String) :
    isValidSetup setup = true ↔ setup.length = 5 ∧ setup.Nodup := by
  have h := foldl_jsSetAdd_length_eq_iff setup []
  simp only [List.length_nil, Nat.zero_add, List.not_mem_nil, not_false_eq_true,
    implies_true, and_true] at h
  unfold isValidSetup jsSetOf
  simp only [Bool.and_eq_true, beq_iff_eq]
  constructor
  · rintro ⟨h5, hs⟩
    exact ⟨h5, h.mp (by omega)⟩
  · rintro ⟨h5, hnd⟩
    exact ⟨h5, by rw [h.mpr hnd]; exact h5⟩

/-! ## Lemmas on move generation -/

theorem addMoveIfValid_eq (gameBoard : List Cell) (player : Option String)
    (hlen : gameBoard.length = 25) (moves : List Move) (row col : Int) :
    addMoveIfValid gameBoard player moves row col =
      some (moves ++ [(⟨row, col⟩ : Move)].filter (legalCell gameBoard player)) := by
  unfold addMoveIfValid
  by_cases hb : row ≥ 0 ∧ row < 5 ∧ col ≥ 0 ∧ col < 5
  · have hlt : (row * 5 + col).toNat < gameBoard.length := by omega
    have hin : inBounds row col := ⟨hb.1, hb.2.1, hb.2.2.1, hb.2.2.2⟩
    rw [if_pos hb, List.getElem?_eq_getElem hlt]
    simp only [List.filter_cons, List.filter_nil, legalCell, ownAt, cellAt,
      List.getElem?_eq_getElem hlt, hin, decide_True, Bool.true_and]
    split <;> simp
  · have hin : ¬ inBounds row col := fun h => hb ⟨h.1, h.2.1, h.2.2.1, h.2.2.2⟩
    rw [if_neg hb]
    simp [legalCell, hin]


theorem filter_four (p : Move → Bool) (a b c d : Move) :
    ((([] ++ [a].filter p) ++ [b].filter p) ++ [c].filter p) ++ [d].filter p =
      [a, b, c, d].filter p := by
  rw [List.nil_append, ← List.filter_append, ← List.filter_append, ← List.filter_append]
  rfl

theorem getValidMoves_eq (gameBoard : List Cell) (player : Option String)
    (hlen : gameBoard.length = 25) (piece : String) (row col : Int) :
    getValidMoves gameBoard player piece row col =
      some ((candidates player piece row col).filter (legalCell gameBoard player)) := by
  unfold getValidMoves candidates forwardStep
  simp only [addMoveIfValid_eq gameBoard player hlen, bind, Option.bind, pure, filter_four]
  split
  · rfl
  · split
    · split
      · rfl
      · split
        · rfl
        · rfl
    · rfl


/-! ## Lemmas on class names -/

theorem data_prefix_append (a b : String) : (a ++ b).data = a.data ++ b.data := by
  simp

theorem playerPrefix_cancel (a b : String) (h : "player-" ++ a = "player-" ++ b) : a = b := by
  have h2 := congrArg String.data h
  rw [data_prefix_append, data_prefix_append] at h2
  exact String.ext (List.append_cancel_left h2)

theorem isPlayerClass_playerClass (player : Option String) :
    isPlayerClass (playerClass player) = true := by
  unfold isPlayerClass playerClass
  rw [data_prefix_append, List.isPrefixOf_iff_prefix]
  exact List.prefix_append _ _

theorem contains_false_of_isEmpty (cell : Cell) (player : Option String)
    (h : cell.isEmpty = true) : cell.classList.contains (playerClass player) = false := by
  by_contra hc
  have hmem : playerClass player ∈ cell.classList := by
    simpa using hc
  have : playerClass player ∈ cell.playerClasses :=
    List.mem_filter.mpr ⟨hmem, isPlayerClass_playerClass player⟩
  unfold Cell.isEmpty at h
  simp at h
  rw [h] at this
  simp at this

theorem contains_false_of_occupiedBy (cell : Cell) (player : Option String) (owner : String)
    (h : cell.occupiedBy owner = true) (hne : owner ≠ jsStr player) :
    cell.classList.contains (playerClass player) = false := by
  by_contra hc
  have hmem : playerClass player ∈ cell.classList := by
    simpa using hc
  have : playerClass player ∈ cell.playerClasses :=
    List.mem_filter.mpr ⟨hmem, isPlayerClass_playerClass player⟩
  unfold Cell.occupiedBy at h
  simp at h
  rw [h] at this
  simp only [List.mem_singleton, playerClass] at this
  exact hne (playerPrefix_cancel _ _ this).symm

theorem head_of_P (piece : String) (h : ∃ rest : String, piece = "P" ++ rest) :
    piece.data[0]? = some 'P' := by
  obtain ⟨rest, rfl⟩ := h
  simp

theorem head_of_H1 (piece : String) (h : ∃ rest : String, piece = "H1" ++ rest) :
    piece.data[0]? = some 'H' ∧ piece.data[1]? = some '1' := by
  obtain ⟨rest, rfl⟩ := h
  simp

theorem head_of_H2 (piece : String) (h : ∃ rest : String, piece = "H2" ++ rest) :
    piece.data[0]? = some 'H' ∧ piece.data[1]? = some '2' := by
  obtain ⟨rest, rfl⟩ := h
  simp

theorem candidates_P (player : Option String) (piece : String) (row col : Int)
    (h : piece.data[0]? = some 'P') :
    candidates player piece row col =
      [⟨row + forwardStep player, col⟩, ⟨row, col - 1⟩, ⟨row, col + 1⟩,
       ⟨row - forwardStep player, col⟩] := by
  simp [candidates, h]

theorem candidates_H1 (player : Option String) (piece : String) (row col : Int)
    (h : piece.data[0]? = some 'H' ∧ piece.data[1]? = some '1') :
    candidates player piece row col =
      [⟨row + 2 * forwardStep player, col⟩, ⟨row - 2 * forwardStep player, col⟩,
       ⟨row, col - 2⟩, ⟨row, col + 2⟩] := by
  simp [candidates, h.1, h.2]

theorem candidates_H2 (player : Option String) (piece : String) (row col : Int)
    (h : piece.data[0]? = some 'H' ∧ piece.data[1]? = some '2') :
    candidates player piece row col =
      [⟨row + 2 * forwardStep player, col + 2⟩, ⟨row + 2 * forwardStep player, col - 2⟩,
       ⟨row - 2 * forwardStep player, col + 2⟩, ⟨row - 2 * forwardStep player, col - 2⟩] := by
  simp [candidates, h.1, h.2]

theorem forwardStep_cases (player : Option String) :
    forwardStep player = 1 ∨ forwardStep player = -1 := by
  unfold forwardStep; split <;> simp

theorem mem_legal_filter (gameBoard : List Cell) (player : Option String)
    (cands : List Move) (m : Move) :
    m ∈ cands.filter (legalCell gameBoard player) ↔
      m ∈ cands ∧ inBounds m.row m.col ∧ ownAt gameBoard player m.row m.col = false := by
  simp [List.mem_filter, legalCell]

theorem candidates_kind (player : Option String) (piece : String) (row col : Int) :
    (piece.data[0]? = some 'P' ∧ ∀ m : Move, m ∈ candidates player piece row col ↔
      m ∈ [(⟨row + 1, col⟩ : Move), ⟨row - 1, col⟩, ⟨row, col - 1⟩, ⟨row, col + 1⟩]) ∨
    ((piece.data[0]? = some 'H' ∧ piece.data[1]? = some '1') ∧
      ∀ m : Move, m ∈ candidates player piece row col ↔
      m ∈ [(⟨row + 2, col⟩ : Move), ⟨row - 2, col⟩, ⟨row, col - 2⟩, ⟨row, col + 2⟩]) ∨
    ((piece.data[0]? = some 'H' ∧ piece.data[1]? = some '2') ∧
      ∀ m : Move, m ∈ candidates player piece row col ↔
      m ∈ [(⟨row + 2, col + 2⟩ : Move), ⟨row + 2, col - 2⟩, ⟨row - 2, col + 2⟩,
        ⟨row - 2, col - 2⟩]) ∨
    ((piece.data[0]? ≠ some 'P' ∧
        ¬ (piece.data[0]? = some 'H' ∧ piece.data[1]? = some '1') ∧
        ¬ (piece.data[0]? = some 'H' ∧ piece.data[1]? = some '2')) ∧
      candidates player piece row col = []) := by
  by_cases hP : piece.data[0]? = some 'P'
  · left
    refine ⟨hP, fun m => ?_⟩
    rw [candidates_P player piece row col hP]
    rcases forwardStep_cases player with h | h <;> rw [h] <;>
      simp only [List.mem_cons, List.mem_singleton, List.not_mem_nil, or_false,
        Int.sub_neg] <;> tauto
  · right
    by_cases hH1 : piece.data[0]? = some 'H' ∧ piece.data[1]? = some '1'
    · left
      refine ⟨hH1, fun m => ?_⟩
      rw [candidates_H1 player piece row col hH1]
      rcases forwardStep_cases player with h | h <;> rw [h] <;>
        simp only [List.mem_cons, List.mem_singleton, List.not_mem_nil, or_false,
          Int.mul_one, Int.mul_neg, Int.sub_neg] <;> tauto
    · right
      by_cases hH2 : piece.data[0]? = some 'H' ∧ piece.data[1]? = some '2'
      · left
        refine ⟨hH2, fun m => ?_⟩
        rw [candidates_H2 player piece row col hH2]
        rcases forwardStep_cases player with h | h <;> rw [h] <;>
          simp only [List.mem_cons, List.mem_singleton, List.not_mem_nil, or_false,
            Int.mul_one, Int.mul_neg, Int.sub_neg] <;> tauto
      · right
        refine ⟨⟨hP, hH1, hH2⟩, ?_⟩
        unfold candidates
        rw [if_neg hP]
        by_cases hH : piece.data[0]? = some 'H'
        · have h1 : piece.data[1]? ≠ some '1' := fun h => hH1 ⟨hH, h⟩
          have h2 : piece.data[1]? ≠ some '2' := fun h => hH2 ⟨hH, h⟩
          simp [hH, h1, h2]
        · simp [hH]

theorem legalCell_congr (gb1 gb2 : List Cell) (player : Option String) (cands : List Move)
    (h : ∀ m ∈ cands, inBounds m.row m.col → cellAt gb2 m.row m.col = cellAt gb1 m.row m.col) :
    cands.filter (legalCell gb2 player) = cands.filter (legalCell gb1 player) := by
  apply List.filter_congr
  intro m hm
  unfold legalCell
  by_cases hb : inBounds m.row m.col
  · simp only [hb, decide_True, Bool.true_and, ownAt, h m hm hb]
  · simp [hb]

/-! ## Claims -/

/-- C1: `isValidSetup(setup)` is true exactly when `setup` has 5 entries and
these are pairwise distinct; a setup with a repeated kind or with a length
other than 5 is rejected. -/
theorem C1_isValidSetup_iff_five_distinct (setup : List String) :
    (isValidSetup setup = true ↔
      setup.length = 5 ∧ setup.Pairwise (fun a b => a ≠ b)) ∧
    (isValidSetup setup = false ↔ setup.length ≠ 5 ∨ ¬ setup.Nodup) := by
  have h := isValidSetup_iff setup
  refine ⟨h, ?_⟩
  rw [← Bool.not_eq_true, h]
  tauto


/-- C2: on a rendered board (25 cells), for any player, any origin on the
board and any piece whose name starts with `P`, `getValidMoves` returns a list
whose members are exactly the one-step cardinal neighbours of the origin that
lie on the board and do not carry the mover's own class; every returned cell
is at distance one along a single axis (never diagonal, never further). -/
theorem C2_pawn_destinations (gameBoard : List Cell) (player : Option String)
    (piece : String) (row col : Int)
    (hlen : gameBoard.length = 25) (hP : ∃ rest : String, piece = "P" ++ rest)
    (_horigin : inBounds row col) :
    ∃ moves, getValidMoves gameBoard player piece row col = some moves ∧
      (∀ m : Move, m ∈ moves ↔
        m ∈ [(⟨row + 1, col⟩ : Move), ⟨row - 1, col⟩, ⟨row, col - 1⟩, ⟨row, col + 1⟩] ∧
          inBounds m.row m.col ∧ ownAt gameBoard player m.row m.col = false) ∧
      (∀ m ∈ moves, (m.row - row).natAbs + (m.col - col).natAbs = 1) := by
  have hiff : ∀ m : Move, m ∈ candidates player piece row col ↔
      m ∈ [(⟨row + 1, col⟩ : Move), ⟨row - 1, col⟩, ⟨row, col - 1⟩, ⟨row, col + 1⟩] := by
    intro m
    rw [candidates_P player piece row col (head_of_P piece hP)]
    rcases forwardStep_cases player with h | h <;> rw [h] <;>
      simp only [List.mem_cons, List.mem_singleton, List.not_mem_nil, or_false,
        Int.sub_neg] <;> tauto
  refine ⟨_, getValidMoves_eq gameBoard player hlen piece row col, ?_, ?_⟩
  · intro m
    rw [mem_legal_filter, hiff]
  · intro m hm
    rw [mem_legal_filter, hiff] at hm
    simp only [List.mem_cons, List.mem_singleton, List.not_mem_nil, or_false] at hm
    rcases hm.1 with rfl | rfl | rfl | rfl <;> simp


/-- C3: on a rendered board, for any player and origin on the board, the
destinations `getValidMoves` returns for an `H1` piece are exactly the two-step
cardinal jumps that lie on the board and do not carry the mover's own class.
The result is the same on every other board that has the same cells at those
four destinations (so the jumped-over cells play no part), it never holds a
cell off the origin's row and column, and it has at most 4 entries. -/
theorem C3_hero1_destinations (gameBoard : List Cell) (player : Option String)
    (piece : String) (row col : Int)
    (hlen : gameBoard.length = 25) (hH1 : ∃ rest : String, piece = "H1" ++ rest)
    (_horigin : inBounds row col) :
    ∃ moves, getValidMoves gameBoard player piece row col = some moves ∧
      (∀ m : Move, m ∈ moves ↔
        m ∈ [(⟨row + 2, col⟩ : Move), ⟨row - 2, col⟩, ⟨row, col - 2⟩, ⟨row, col + 2⟩] ∧
          inBounds m.row m.col ∧ ownAt gameBoard player m.row m.col = false) ∧
      (∀ other : List Cell, other.length = 25 →
        (∀ m ∈ [(⟨row + 2, col⟩ : Move), ⟨row - 2, col⟩, ⟨row, col - 2⟩, ⟨row, col + 2⟩],
          inBounds m.row m.col → cellAt other m.row m.col = cellAt gameBoard m.row m.col) →
        getValidMoves other player piece row col = some moves) ∧
      (∀ m ∈ moves, (m.row = row ∨ m.col = col) ∧
        (m.row - row).natAbs + (m.col - col).natAbs = 2) ∧
      moves.length ≤ 4 := by
  have hc := candidates_H1 player piece row col (head_of_H1 piece hH1)
  have hiff : ∀ m : Move, m ∈ candidates player piece row col ↔
      m ∈ [(⟨row + 2, col⟩ : Move), ⟨row - 2, col⟩, ⟨row, col - 2⟩, ⟨row, col + 2⟩] := by
    intro m
    rw [hc]
    rcases forwardStep_cases player with h | h <;> rw [h] <;>
      simp only [List.mem_cons, List.mem_singleton, List.not_mem_nil, or_false,
        Int.mul_one, Int.mul_neg, Int.sub_neg] <;> tauto
  refine ⟨_, getValidMoves_eq gameBoard player hlen piece row col, ?_, ?_, ?_, ?_⟩
  · intro m
    rw [mem_legal_filter, hiff]
  · intro other hother hsame
    rw [getValidMoves_eq other player hother piece row col]
    congr 1
    apply legalCell_congr
    intro m hm hb
    exact hsame m ((hiff m).mp hm) hb
  · intro m hm
    rw [mem_legal_filter, hiff] at hm
    simp only [List.mem_cons, List.mem_singleton, List.not_mem_nil, or_false] at hm
    rcases hm.1 with rfl | rfl | rfl | rfl <;> simp
  · refine le_trans (List.length_filter_le _ _) ?_
    rw [hc]
    simp

/-- C4: on a rendered board, for any player and origin on the board, the
destinations `getValidMoves` returns for an `H2` piece are exactly the two-step
diagonal jumps that lie on the board and do not carry the mover's own class;
no returned cell is in the origin's row or column, and there are at most 4. -/
theorem C4_hero2_destinations (gameBoard : List Cell) (player : Option String)
    (piece : String) (row col : Int)
    (hlen : gameBoard.length = 25) (hH2 : ∃ rest : String, piece = "H2" ++ rest)
    (_horigin : inBounds row col) :
    ∃ moves, getValidMoves gameBoard player piece row col = some moves ∧
      (∀ m : Move, m ∈ moves ↔
        m ∈ [(⟨row + 2, col + 2⟩ : Move), ⟨row + 2, col - 2⟩, ⟨row - 2, col + 2⟩,
          ⟨row - 2, col - 2⟩] ∧
          inBounds m.row m.col ∧ ownAt gameBoard player m.row m.col = false) ∧
      (∀ m ∈ moves, m.row ≠ row ∧ m.col ≠ col) ∧
      moves.length ≤ 4 := by
  have hc := candidates_H2 player piece row col (head_of_H2 piece hH2)
  have hiff : ∀ m : Move, m ∈ candidates player piece row col ↔
      m ∈ [(⟨row + 2, col + 2⟩ : Move), ⟨row + 2, col - 2⟩, ⟨row - 2, col + 2⟩,
          ⟨row - 2, col - 2⟩] := by
    intro m
    rw [hc]
    rcases forwardStep_cases player with h | h <;> rw [h] <;>
      simp only [List.mem_cons, List.mem_singleton, List.not_mem_nil, or_false,
        Int.mul_one, Int.mul_neg, Int.sub_neg] <;> tauto
  refine ⟨_, getValidMoves_eq gameBoard player hlen piece row col, ?_, ?_, ?_⟩
  · intro m
    rw [mem_legal_filter, hiff]
  · intro m hm
    rw [mem_legal_filter, hiff] at hm
    simp only [List.mem_cons, List.mem_singleton, List.not_mem_nil, or_false] at hm
    rcases hm.1 with rfl | rfl | rfl | rfl <;> simp
  · refine le_trans (List.length_filter_le _ _) ?_
    rw [hc]
    simp

/-- C5: on a rendered board, for any piece string (also one that is neither a
pawn nor `H1` nor `H2`), any player and any origin on the board, every cell
`getValidMoves` returns lies on the board and does not carry the mover's own
class; and every cell handed to `addMoveIfValid` that lies on the board and is
occupied by a piece of another player is returned. -/
theorem C5_destinations_safe_and_captures_kept (gameBoard : List Cell)
    (player : Option String) (piece : String) (row col : Int)
    (hlen : gameBoard.length = 25) (_horigin : inBounds row col) :
    ∃ moves, getValidMoves gameBoard player piece row col = some moves ∧
      (∀ m ∈ moves, (0 ≤ m.row ∧ m.row < 5 ∧ 0 ≤ m.col ∧ m.col < 5) ∧
        ownAt gameBoard player m.row m.col = false) ∧
      (∀ m ∈ candidates player piece row col, inBounds m.row m.col →
        (∃ opponent, opponent ≠ jsStr player ∧
          occupiedAt gameBoard opponent m.row m.col = true) →
        m ∈ moves) := by
  refine ⟨_, getValidMoves_eq gameBoard player hlen piece row col, ?_, ?_⟩
  · intro m hm
    rw [mem_legal_filter] at hm
    exact ⟨hm.2.1, hm.2.2⟩
  · rintro m hm hb ⟨opponent, hne, hocc⟩
    rw [mem_legal_filter]
    refine ⟨hm, hb, ?_⟩
    unfold occupiedAt at hocc
    unfold ownAt
    cases hcell : cellAt gameBoard m.row m.col with
    | none => rfl
    | some cell =>
      rw [hcell] at hocc
      exact contains_false_of_occupiedBy cell player opponent hocc hne



/-- C6: for a pawn of any player on a rendered board: from an interior cell
(row and column in 1..3) whose four cardinal neighbours are empty,
`getValidMoves` returns exactly 4 destinations; from each of the four corner
cells, whatever the board holds, it returns fewer than 4. -/
theorem C6_pawn_move_count (gameBoard : List Cell) (player : Option String)
    (piece : String)
    (hlen : gameBoard.length = 25) (hP : ∃ rest : String, piece = "P" ++ rest) :
    (∀ row col : Int, 1 ≤ row ∧ row ≤ 3 ∧ 1 ≤ col ∧ col ≤ 3 →
      (∀ m ∈ [(⟨row + 1, col⟩ : Move), ⟨row - 1, col⟩, ⟨row, col - 1⟩, ⟨row, col + 1⟩],
        emptyAt gameBoard m.row m.col = true) →
      ∃ moves, getValidMoves gameBoard player piece row col = some moves ∧
        moves.length = 4) ∧
    (∀ row col : Int, (row, col) ∈ [((0 : Int), (0 : Int)), (0, 4), (4, 0), (4, 4)] →
      ∃ moves, getValidMoves gameBoard player piece row col = some moves ∧
        moves.length < 4) := by
  have hc := fun row col => candidates_P player piece row col (head_of_P piece hP)
  constructor
  · intro row col hint hempty
    refine ⟨_, getValidMoves_eq gameBoard player hlen piece row col, ?_⟩
    have hall : ∀ m ∈ candidates player piece row col,
        legalCell gameBoard player m = true := by
      intro m hm
      have hm2 : m ∈ [(⟨row + 1, col⟩ : Move), ⟨row - 1, col⟩, ⟨row, col - 1⟩,
          ⟨row, col + 1⟩] := by
        rw [hc] at hm
        rcases forwardStep_cases player with h | h <;> rw [h] at hm <;>
          simp only [List.mem_cons, List.mem_singleton, List.not_mem_nil, or_false,
            Int.sub_neg] at hm ⊢ <;> tauto
      have hem := hempty m hm2
      unfold emptyAt at hem
      cases hcell : cellAt gameBoard m.row m.col with
      | none => rw [hcell] at hem; exact absurd hem (by simp)
      | some cell =>
      rw [hcell] at hem
      have hcempty : cell.isEmpty = true := hem
      have hb : inBounds m.row m.col := by
        simp only [List.mem_cons, List.mem_singleton, List.not_mem_nil, or_false] at hm2
        unfold inBounds
        rcases hm2 with rfl | rfl | rfl | rfl <;> simp <;> omega
      unfold legalCell ownAt
      rw [hcell]
      simp only [contains_false_of_isEmpty cell player hcempty, hb, decide_True,
        Bool.not_false, Bool.and_self]
    rw [List.filter_length_eq_length.mpr hall, hc]
    rfl
  · intro row col hcorner
    refine ⟨_, getValidMoves_eq gameBoard player hlen piece row col, ?_⟩
    have h4 : (candidates player piece row col).length = 4 := by rw [hc]; rfl
    rw [← h4, List.length_filter_lt_length_iff_exists]
    simp only [List.mem_cons, List.mem_singleton, List.not_mem_nil, or_false,
      Prod.mk.injEq] at hcorner
    rw [hc]
    rcases hcorner with ⟨rfl, rfl⟩ | ⟨rfl, rfl⟩ | ⟨rfl, rfl⟩ | ⟨rfl, rfl⟩
    · exact ⟨⟨0, 0 - 1⟩, by simp, by simp [legalCell, inBounds]⟩
    · exact ⟨⟨0, 4 + 1⟩, by simp, by simp [legalCell, inBounds]⟩
    · exact ⟨⟨4, 0 - 1⟩, by simp, by simp [legalCell, inBounds]⟩
    · exact ⟨⟨4, 4 + 1⟩, by simp, by simp [legalCell, inBounds]⟩


/-- C10: on a rendered board, for any player, origin on the board and piece
string, two different destinations returned by `getValidMoves` never get the
same direction token from `getMoveDirection`; the token of a destination is
one of `F`, `B`, `L`, `R` for a pawn and for `H1`, and one of `FR`, `FL`,
`BR`, `BL` for `H2`. -/
theorem C10_direction_token_injective (gameBoard : List Cell) (player : Option String)
    (piece : String) (row col : Int)
    (hlen : gameBoard.length = 25) (_horigin : inBounds row col) :
    ∃ moves, getValidMoves gameBoard player piece row col = some moves ∧
      (∀ m1 ∈ moves, ∀ m2 ∈ moves,
        getMoveDirection row col m1.row m1.col = getMoveDirection row col m2.row m2.col →
        m1 = m2) ∧
      (((∃ rest : String, piece = "P" ++ rest) ∨ (∃ rest : String, piece = "H1" ++ rest)) →
        ∀ m ∈ moves, getMoveDirection row col m.row m.col ∈ ["F", "B", "L", "R"]) ∧
      ((∃ rest : String, piece = "H2" ++ rest) →
        ∀ m ∈ moves, getMoveDirection row col m.row m.col ∈ ["FR", "FL", "BR", "BL"]) := by
  refine ⟨_, getValidMoves_eq gameBoard player hlen piece row col, ?_, ?_, ?_⟩
  · intro m1 hm1 m2 hm2
    have h1 := (List.mem_filter.mp hm1).1
    have h2 := (List.mem_filter.mp hm2).1
    rcases candidates_kind player piece row col with ⟨_, hk⟩ | ⟨_, hk⟩ | ⟨_, hk⟩ | ⟨_, hk⟩
    · rw [hk] at h1 h2
      simp only [List.mem_cons, List.mem_singleton, List.not_mem_nil, or_false] at h1 h2
      rcases h1 with rfl | rfl | rfl | rfl <;> rcases h2 with rfl | rfl | rfl | rfl <;>
        simp [getMoveDirection]
    · rw [hk] at h1 h2
      simp only [List.mem_cons, List.mem_singleton, List.not_mem_nil, or_false] at h1 h2
      rcases h1 with rfl | rfl | rfl | rfl <;> rcases h2 with rfl | rfl | rfl | rfl <;>
        simp [getMoveDirection]
    · rw [hk] at h1 h2
      simp only [List.mem_cons, List.mem_singleton, List.not_mem_nil, or_false] at h1 h2
      rcases h1 with rfl | rfl | rfl | rfl <;> rcases h2 with rfl | rfl | rfl | rfl <;>
        simp [getMoveDirection]
    · rw [hk] at h1
      simp at h1
  · intro hkind m hm
    have h1 := (List.mem_filter.mp hm).1
    have hhead : piece.data[0]? = some 'P' ∨
        (piece.data[0]? = some 'H' ∧ piece.data[1]? = some '1') := by
      rcases hkind with h | h
      · exact Or.inl (head_of_P piece h)
      · exact Or.inr (head_of_H1 piece h)
    rcases candidates_kind player piece row col with ⟨hp, hk⟩ | ⟨hp, hk⟩ | ⟨hp, hk⟩ | ⟨hp, hk⟩
    · rw [hk] at h1
      simp only [List.mem_cons, List.mem_singleton, List.not_mem_nil, or_false] at h1
      rcases h1 with rfl | rfl | rfl | rfl <;> simp [getMoveDirection]
    · rw [hk] at h1
      simp only [List.mem_cons, List.mem_singleton, List.not_mem_nil, or_false] at h1
      rcases h1 with rfl | rfl | rfl | rfl <;> simp [getMoveDirection]
    · exfalso
      rcases hhead with h | h
      · rw [hp.1] at h; simp at h
      · rw [hp.2] at h; simp at h
    · rw [hk] at h1
      simp at h1
  · intro hkind m hm
    have h1 := (List.mem_filter.mp hm).1
    have hhead := head_of_H2 piece hkind
    rcases candidates_kind player piece row col with ⟨hp, hk⟩ | ⟨hp, hk⟩ | ⟨hp, hk⟩ | ⟨hp, hk⟩
    · exfalso
      rw [hp] at hhead; simp at hhead
    · exfalso
      rw [hp.2] at hhead; simp at hhead
    · rw [hk] at h1
      simp only [List.mem_cons, List.mem_singleton, List.not_mem_nil, or_false] at h1
      rcases h1 with rfl | rfl | rfl | rfl <;> simp [getMoveDirection]
    · rw [hk] at h1
      simp at h1


/-- C7 (evaluation at the failing input): for player B the forward step of
`getValidMoves` is towards the lower row, the pawn of B at (4, 0) of the sample
position may go to (3, 0), which is that forward cell, and `getMoveDirection`
names this move `B`, without an `F`; `makeMove` sends it as `P2:B`. The
backward cell of B gets `F`. For player A the forward cell does get `F`. -/
theorem C7_playerB_forward_move_is_sent_as_B :
    forwardStep (some "B") = -1 ∧
    getValidMoves sampleBoard (some "B") "P2" 4 0 =
      some [(⟨4 + forwardStep (some "B"), 0⟩ : Move)] ∧
    getMoveDirection 4 0 (4 + forwardStep (some "B")) 0 = "B" ∧
    'F' ∉ (getMoveDirection 4 0 (4 + forwardStep (some "B")) 0).data ∧
    getMoveDirection 3 3 (3 - forwardStep (some "B")) 3 = "F" ∧
    getMoveDirection 1 1 (1 + forwardStep (some "A")) 1 = "F" ∧
    (makeMove sampleClientB ⟨4, 0, "P2", ["cell", "player-B", "selected"]⟩ 3 0).map
        (fun st => st.socket) =
      some (some [OutMsg.make_move (some "abc123") (some "B") "P2:B"]) := by
  decide

/-- C8: with an open socket, `startGame` sends `initialize_game` with the game
id and both setups as read exactly when each setup has 5 pairwise distinct
entries, hiding the form; otherwise it sends nothing, leaves the display of
the form as it was and shows the invalid-setup text. -/
theorem C8_startGame_sends_iff_both_valid (st : Client) (setupA setupB : List String)
    (sent : List OutMsg) (hsocket : st.socket = some sent) :
    ∃ st1, startGame st setupA setupB = some st1 ∧
      (st1.socket = some (sent ++ [OutMsg.initialize_game st.gameId setupA setupB]) ↔
        (setupA.length = 5 ∧ setupA.Nodup) ∧ (setupB.length = 5 ∧ setupB.Nodup)) ∧
      (¬ ((setupA.length = 5 ∧ setupA.Nodup) ∧ (setupB.length = 5 ∧ setupB.Nodup)) →
        st1.socket = some sent ∧
        st1.setupFormDisplay = st.setupFormDisplay ∧
        st1.messageDisplay =
          "Invalid setup. Please ensure you have selected 5 unique characters." ∧
        st1 = { st with messageDisplay :=
          "Invalid setup. Please ensure you have selected 5 unique characters." }) := by
  by_cases hv : (setupA.length = 5 ∧ setupA.Nodup) ∧ (setupB.length = 5 ∧ setupB.Nodup)
  · have ha := (isValidSetup_iff setupA).mpr hv.1
    have hb := (isValidSetup_iff setupB).mpr hv.2
    refine ⟨{ st with socket := some (sent ++ [OutMsg.initialize_game st.gameId setupA setupB]),
                      setupFormDisplay := "none" }, ?_, ?_, ?_⟩
    · simp [startGame, socketSend, ha, hb, hsocket]
    · simp [hv]
    · intro h; exact absurd hv h
  · have hnot : (isValidSetup setupA && isValidSetup setupB) = false := by
      rw [Bool.eq_false_iff]
      intro h
      rw [Bool.and_eq_true, isValidSetup_iff, isValidSetup_iff] at h
      exact hv h
    refine ⟨setMessage st "Invalid setup. Please ensure you have selected 5 unique characters.",
      ?_, ?_, ?_⟩
    · simp [startGame, hnot]
    · simp only [setMessage, hsocket, hv, iff_false]
      intro h
      have := congrArg (Option.map List.length) h
      simp at this
    · intro _
      exact ⟨hsocket, rfl, rfl, rfl⟩

/-- C9: a parsed message whose `type` is none of `game_created`,
`player_assigned`, `game_initialized`, `move_made`, `error` leaves the whole
client state (player, turn, board cells, texts) as it is, and `handleMessage`
always returns; whenever the current turn differs after a message, the type
was `game_initialized` or `move_made` and the new turn is the message's
`current_player`; and on these two types, when the board renders, the turn
becomes `current_player`. -/
theorem C9_handleMessage_frame (st : Client) (data : InMsg) :
    (data.type ∉ [some "game_created", some "player_assigned", some "game_initialized",
        some "move_made", some "error"] → handleMessage st data = st) ∧
    ((handleMessage st data).currentTurn ≠ st.currentTurn →
      (data.type = some "game_initialized" ∨ data.type = some "move_made") ∧
        (handleMessage st data).currentTurn = data.current_player) ∧
    ((data.type = some "game_initialized" ∨ data.type = some "move_made") →
      (renderBoard st data.board).2 = true →
        (handleMessage st data).currentTurn = data.current_player) := by
  have hrender : ∀ board, (renderBoard st board).1.currentTurn = st.currentTurn := by
    intro board
    unfold renderBoard
    cases board <;> rfl
  have hcase : ∀ b : Client × Bool, b.1.currentTurn = st.currentTurn →
      ((match b with
        | (st1, false) => st1
        | (st1, true) => updateTurnDisplay { st1 with currentTurn := data.current_player }
        ).currentTurn ≠ st.currentTurn →
        (match b with
        | (st1, false) => st1
        | (st1, true) => updateTurnDisplay { st1 with currentTurn := data.current_player }
        ).currentTurn = data.current_player) ∧
      (b.2 = true →
        (match b with
        | (st1, false) => st1
        | (st1, true) => updateTurnDisplay { st1 with currentTurn := data.current_player }
        ).currentTurn = data.current_player) := by
    rintro ⟨st1, ok⟩ h
    cases ok
    · exact ⟨fun hne => absurd h hne, fun hf => absurd hf (by simp)⟩
    · exact ⟨fun _ => rfl, fun _ => rfl⟩
  unfold handleMessage
  refine ⟨?_, ?_, ?_⟩
  · intro h
    simp only [List.mem_cons, List.mem_singleton, List.not_mem_nil, or_false, not_or] at h
    rw [if_neg h.1, if_neg h.2.1, if_neg h.2.2.1, if_neg h.2.2.2.1, if_neg h.2.2.2.2]
  · split
    · intro h; exact absurd rfl h
    · split
      · intro h; exact absurd rfl h
      · split
        · next h3 =>
          intro h
          exact ⟨Or.inl h3, (hcase _ (hrender data.board)).1 h⟩
        · split
          · next h4 =>
            intro h
            exact ⟨Or.inr h4, (hcase _ (hrender data.board)).1 h⟩
          · split
            · intro h; exact absurd rfl h
            · intro h; exact absurd rfl h
  · intro hty hok
    split
    · next h1 => rcases hty with h | h <;> rw [h1] at h <;> simp at h
    · split
      · next h2 => rcases hty with h | h <;> rw [h2] at h <;> simp at h
      · split
        · exact (hcase _ (hrender data.board)).2 hok
        · split
          · exact (hcase _ (hrender data.board)).2 hok
          · next h3 h4 => rcases hty with h | h
                          · exact absurd h h3
                          · exact absurd h h4


/-! ## Instances on the sample position -/

/-- The pawn `P1` of player A at (1, 1) of the sample position. -/
theorem C2_pawn_destinations_witness :
    (sampleBoard.length = 25 ∧ inBounds 1 1) ∧
    ∃ moves, getValidMoves sampleBoard (some "A") "P1" 1 1 = some moves ∧
      (∀ m : Move, m ∈ moves ↔
        m ∈ [(⟨1 + 1, 1⟩ : Move), ⟨1 - 1, 1⟩, ⟨1, 1 - 1⟩, ⟨1, 1 + 1⟩] ∧
          inBounds m.row m.col ∧ ownAt sampleBoard (some "A") m.row m.col = false) ∧
      (∀ m ∈ moves, (m.row - 1).natAbs + (m.col - 1).natAbs = 1) :=
  ⟨by decide,
   C2_pawn_destinations sampleBoard (some "A") "P1" 1 1 (by decide) ⟨"1", by decide⟩
     (by decide)⟩

/-- The piece `H1` of player A at (0, 3) of the sample position. -/
theorem C3_hero1_destinations_witness :
    (sampleBoard.length = 25 ∧ inBounds 0 3) ∧
    ∃ moves, getValidMoves sampleBoard (some "A") "H1" 0 3 = some moves ∧
      (∀ m : Move, m ∈ moves ↔
        m ∈ [(⟨0 + 2, 3⟩ : Move), ⟨0 - 2, 3⟩, ⟨0, 3 - 2⟩, ⟨0, 3 + 2⟩] ∧
          inBounds m.row m.col ∧ ownAt sampleBoard (some "A") m.row m.col = false) ∧
      (∀ other : List Cell, other.length = 25 →
        (∀ m ∈ [(⟨0 + 2, 3⟩ : Move), ⟨0 - 2, 3⟩, ⟨0, 3 - 2⟩, ⟨0, 3 + 2⟩],
          inBounds m.row m.col → cellAt other m.row m.col = cellAt sampleBoard m.row m.col) →
        getValidMoves other (some "A") "H1" 0 3 = some moves) ∧
      (∀ m ∈ moves, (m.row = 0 ∨ m.col = 3) ∧
        (m.row - 0).natAbs + (m.col - 3).natAbs = 2) ∧
      moves.length ≤ 4 :=
  ⟨by decide,
   C3_hero1_destinations sampleBoard (some "A") "H1" 0 3 (by decide) ⟨"", by decide⟩
     (by decide)⟩

/-- The piece `H2` of player B at (4, 4) of the sample position. -/
theorem C4_hero2_destinations_witness :
    (sampleBoard.length = 25 ∧ inBounds 4 4) ∧
    ∃ moves, getValidMoves sampleBoard (some "B") "H2" 4 4 = some moves ∧
      (∀ m : Move, m ∈ moves ↔
        m ∈ [(⟨4 + 2, 4 + 2⟩ : Move), ⟨4 + 2, 4 - 2⟩, ⟨4 - 2, 4 + 2⟩, ⟨4 - 2, 4 - 2⟩] ∧
          inBounds m.row m.col ∧ ownAt sampleBoard (some "B") m.row m.col = false) ∧
      (∀ m ∈ moves, m.row ≠ 4 ∧ m.col ≠ 4) ∧
      moves.length ≤ 4 :=
  ⟨by decide,
   C4_hero2_destinations sampleBoard (some "B") "H2" 4 4 (by decide) ⟨"", by decide⟩
     (by decide)⟩

/-- The pawn `P3` of player A at (2, 3) of the sample position may capture the
pawn of B at (3, 3). -/
theorem C5_destinations_safe_and_captures_kept_witness :
    (sampleBoard.length = 25 ∧ inBounds 2 3 ∧
      (⟨3, 3⟩ : Move) ∈ candidates (some "A") "P3" 2 3 ∧
      "B" ≠ jsStr (some "A") ∧ occupiedAt sampleBoard "B" 3 3 = true) ∧
    ∃ moves, getValidMoves sampleBoard (some "A") "P3" 2 3 = some moves ∧
      (⟨3, 3⟩ : Move) ∈ moves := by
  refine ⟨by decide, ?_⟩
  obtain ⟨moves, hmoves, _, hcapture⟩ :=
    C5_destinations_safe_and_captures_kept sampleBoard (some "A") "P3" 2 3
      (by decide) (by decide)
  exact ⟨moves, hmoves, hcapture ⟨3, 3⟩ (by decide) (by decide) ⟨"B", by decide, by decide⟩⟩

/-- The pawn `P1` of player A: 4 destinations from (1, 1) of the sample
position, fewer from the corner (0, 0). -/
theorem C6_pawn_move_count_witness :
    (sampleBoard.length = 25 ∧
      (∀ m ∈ [(⟨1 + 1, 1⟩ : Move), ⟨1 - 1, 1⟩, ⟨1, 1 - 1⟩, ⟨1, 1 + 1⟩],
        emptyAt sampleBoard m.row m.col = true)) ∧
    (∃ moves, getValidMoves sampleBoard (some "A") "P1" 1 1 = some moves ∧
      moves.length = 4) ∧
    (∃ moves, getValidMoves sampleBoard (some "A") "P1" 0 0 = some moves ∧
      moves.length < 4) := by
  have h := C6_pawn_move_count sampleBoard (some "A") "P1" (by decide) ⟨"1", by decide⟩
  exact ⟨by decide, h.1 1 1 (by decide) (by decide), h.2 0 0 (by decide)⟩

/-- Both setups of the end-to-end scenario are accepted and sent. -/
theorem C8_startGame_sends_iff_both_valid_witness :
    blankClient.socket = some [] ∧
    ∃ st1, startGame blankClient ["P1", "P2", "P3", "P4", "H1"]
        ["P1", "P2", "P3", "P4", "H2"] = some st1 ∧
      st1.socket = some ([] ++ [OutMsg.initialize_game blankClient.gameId
        ["P1", "P2", "P3", "P4", "H1"] ["P1", "P2", "P3", "P4", "H2"]]) := by
  refine ⟨rfl, ?_⟩
  obtain ⟨st1, hstart, hiff, _⟩ :=
    C8_startGame_sends_iff_both_valid blankClient ["P1", "P2", "P3", "P4", "H1"]
      ["P1", "P2", "P3", "P4", "H2"] [] rfl
  exact ⟨st1, hstart, hiff.mpr (by decide)⟩

/-- A `ping` message changes nothing; a `move_made` message with the sample
board hands the turn to B. -/
theorem C9_handleMessage_frame_witness :
    handleMessage sampleClientB pingMsg = sampleClientB ∧
    (handleMessage blankClient moveMadeMsg).currentTurn = some "B" :=
  ⟨(C9_handleMessage_frame sampleClientB pingMsg).1 (by decide),
   (C9_handleMessage_frame blankClient moveMadeMsg).2.2 (by decide) (by decide)⟩

/-- The pawn `P3` of player A at (2, 3) of the sample position. -/
theorem C10_direction_token_injective_witness :
    (sampleBoard.length = 25 ∧ inBounds 2 3) ∧
    ∃ moves, getValidMoves sampleBoard (some "A") "P3" 2 3 = some moves ∧
      (∀ m1 ∈ moves, ∀ m2 ∈ moves,
        getMoveDirection 2 3 m1.row m1.col = getMoveDirection 2 3 m2.row m2.col →
        m1 = m2) ∧
      (∀ m ∈ moves, getMoveDirection 2 3 m.row m.col ∈ ["F", "B", "L", "R"]) := by
  refine ⟨by decide, ?_⟩
  obtain ⟨moves, hmoves, hinj, hpawn, _⟩ :=
    C10_direction_token_injective sampleBoard (some "A") "P3" 2 3 (by decide) (by decide)
  exact ⟨moves, hmoves, hinj, hpawn (Or.inl ⟨"3", by decide⟩)⟩

end Script
